import Mathlib

/-!
# External delegate provider: option marshalling and delegate creation

A shallow embedding of `tensorflow/lite/tools/delegates/external_delegate_provider.cc`.

* A `std::string` is a `List Char` (any character, NUL included).
* `std::istringstream` is the list of unread characters together with its
  `eofbit` and `failbit`.
* The external delegate library (`TfLiteExternalDelegateOptionsDefault`, the
  `insert` member of the options value, `TfLiteExternalDelegateCreate`,
  `TfLiteExternalDelegateDelete`) is a parameter; the calls made to it are
  recorded in a trace.  Its calls read and change a world, which stands for
  the memory of the process and the state of the library.
* The key and the value of an insert call are pointers into the vector
  `key_value` of one loop iteration: each is an address together with the
  text found there during the call.  Where the allocator puts that vector and
  what is left of it once the iteration has destroyed it is a parameter too.
* A failure of the library-loading call leaves `CreateTfLiteDelegate`, whose
  body has no handler: its result is an `Except`.
-/

namespace tflite.tools

/-! ## `std::istringstream` and `std::getline` -/

/-- The part of a `std::istringstream` that `std::getline` reads and writes:
the characters not yet extracted and the two state bits. -/
structure IStringStream where
  buf : List Char
  eofbit : Bool
  failbit : Bool
  deriving DecidableEq, Repr

/-- A fresh stream over `str`, as built by `std::istringstream ss(str)`. -/
def IStringStream.mk_from (str : List Char) : IStringStream :=
  { buf := str, eofbit := false, failbit := false }

/-- The extraction loop of `std::getline(ss, token, delimiter)`: characters are
moved from the buffer to the token until the end of the buffer is met (third
component `true`: `eofbit`) or the next character is the delimiter, which is
extracted and not stored (third component `false`).  Result: the token, the
characters left in the buffer, and whether the end was met. -/
def getlineChars (delimiter : Char) : List Char → List Char × List Char × Bool
  | [] => ([], [], true)
  | c :: cs =>
    if c = delimiter then ([], cs, false)
    else
      let r := getlineChars delimiter cs
      (c :: r.1, r.2.1, r.2.2)

/-- The call `std::getline(ss, token, delimiter)`.  When the stream is not good on entry
nothing is extracted, `failbit` is set and `token` is left as it was.  Otherwise
`token` is erased and refilled by `getlineChars`; `eofbit` is set when the end
of the buffer was met, and `failbit` when no character at all was extracted
(the delimiter counts as an extracted character).  The third way out of the
extraction, a token of `max_size()` characters, is not reached by a string
that fits in memory and is left out. -/
def getline (ss : IStringStream) (token : List Char) (delimiter : Char) :
    IStringStream × List Char :=
  if ss.eofbit || ss.failbit then
    ({ ss with failbit := true }, token)
  else
    let r := getlineChars delimiter ss.buf
    let extracted := r.1.length + (if r.2.2 then 0 else 1)
    ({ buf := r.2.1, eofbit := r.2.2, failbit := extracted == 0 }, r.1)

/-- The loop `while (std::getline(ss, token, delimiter)) tokens.push_back(token);`
run for at most `fuel` evaluations of its condition; `none` when the fuel is
used up before the condition turns false. -/
def SplitStringLoop (delimiter : Char) :
    Nat → IStringStream → List Char → List (List Char) → Option (List (List Char))
  | 0, _, _, _ => none
  | fuel + 1, ss, token, tokens =>
    let r := getline ss token delimiter
    if r.1.failbit then some tokens
    else SplitStringLoop delimiter fuel r.1 r.2 (tokens ++ [r.2])

/-- The function `SplitString(str, delimiter)` with an explicit bound on the number of loop
iterations. -/
def SplitStringFuel (fuel : Nat) (str : List Char) (delimiter : Char) :
    Option (List (List Char)) :=
  SplitStringLoop delimiter fuel (IStringStream.mk_from str) [] []

/-- The function `SplitString(str, delimiter)`: the tokens pushed by the `getline` loop.  The
loop is given `str.length + 1` iterations, which `SplitStringFuel_eq` shows
to be enough for it to finish. -/
def SplitString (str : List Char) (delimiter : Char) : List (List Char) :=
  (SplitStringFuel (str.length + 1) str delimiter).getD []

/-! ## The caller's view of the tool parameters, of memory and of the library -/

/-- The two parameters of the provider that `CreateTfLiteDelegate` reads with
`params.Get<std::string>(...)`. -/
structure ToolParams where
  external_delegate_path : List Char
  external_delegate_options : List Char
  deriving DecidableEq, Repr

/-- The status an `insert` call returns. -/
inductive TfLiteStatus where
  | kTfLiteOk
  | kTfLiteError
  deriving DecidableEq, Repr

/-- A `const char*` obtained from `key_value[i].c_str()`: the address of the
buffer of that string and the text the buffer holds at the time of the call.
A callee may copy the text or keep the address; what a kept address gives
later is a matter of the memory at that later time. -/
structure CharPtr where
  addr : Nat
  text : List Char
  deriving DecidableEq, Repr

/-- The failure of the library-loading call. -/
inductive LoadFailure where
  | LibraryLoadError
  deriving DecidableEq, Repr

instance {ε α : Type} [DecidableEq ε] [DecidableEq α] : DecidableEq (Except ε α) :=
  fun x y =>
    match x, y with
    | Except.ok a, Except.ok b =>
      if h : a = b then isTrue (by rw [h]) else isFalse (fun e => h (Except.ok.inj e))
    | Except.error a, Except.error b =>
      if h : a = b then isTrue (by rw [h]) else isFalse (fun e => h (Except.error.inj e))
    | Except.ok _, Except.error _ => isFalse (fun e => by cases e)
    | Except.error _, Except.ok _ => isFalse (fun e => by cases e)

/-- The entry points of the external delegate library, which are not part of
this file.  `World` is everything outside the local variables of
`CreateTfLiteDelegate` that a call may read or change: the memory of the
process and the state of the library.  `canOpen` and `defaultOptions` are the
two halves of `TfLiteExternalDelegateOptionsDefault` (whether the library at a
path can be opened, and the options value it then returns).  The `insert`
member of the options value is called as
`delegate_options.insert(&delegate_options, key, value)`, so it is a function
of the current options value; it returns a status and leaves a new options
value.  `TfLiteExternalDelegateCreate` returns a `TfLiteDelegate*`, `none` for
`nullptr` and `some a` for the address `a`.  The path is handed over as
`lib_path.c_str()`; `lib_path` lives until `CreateTfLiteDelegate` returns, so
during every call made here that pointer gives the text of the path, and it is
represented by this text. -/
structure ExternalDelegateLib (World Options : Type) where
  canOpen : World → List Char → Bool
  defaultOptions : World → List Char → Options × World
  insert : World → Options → CharPtr → CharPtr → TfLiteStatus × Options × World
  TfLiteExternalDelegateCreate : World → Options → Option Nat × World

/-- What the memory allocator does for the vector `key_value` of one loop
iteration: `auto key_value = SplitString(option, ':')` builds the strings and
gives the address of the buffer of each element, in order, and the end of the
iteration destroys them.  Both are left open: nothing is assumed about where a
buffer is placed, whether an address is used again, or what a destroyed buffer
holds afterwards. -/
structure Allocator (World : Type) where
  construct_key_value : World → List (List Char) → List Nat × World
  destroy_key_value : World → List Nat → World

/-- Modelled from the spec: `TfLiteExternalDelegateOptionsDefault`, declared in
`tensorflow/lite/delegates/external/external_delegate.h` and defined outside
the source at hand.  Section 4.4 step 2 and section 6 of the specification:
the call resolves and opens the dynamic library at `path` and returns its
default options value; it "must fail loudly if the path cannot be opened", the
failure being `LibraryLoadError`. -/
def TfLiteExternalDelegateOptionsDefault {World Options : Type}
    (lib : ExternalDelegateLib World Options) (w : World) (lib_path : List Char) :
    Except LoadFailure (Options × World) :=
  if lib.canOpen w lib_path then Except.ok (lib.defaultOptions w lib_path)
  else Except.error LoadFailure.LibraryLoadError

/-- A call made to the external delegate library. -/
inductive LibCall (Options : Type) where
  | OptionsDefault (lib_path : List Char)
  | Insert (key value : CharPtr)
  | Create (delegate_options : Options)
  | Delete (delegate : Option Nat)
  deriving DecidableEq, Repr

/-- The two deleters a `TfLiteDelegatePtr` is built with in this file:
`[](TfLiteDelegate*) {}` and
`[](TfLiteDelegate* delegate) { TfLiteExternalDelegateDelete(delegate); }`. -/
inductive Deleter where
  | noop
  | externalDelete
  deriving DecidableEq, Repr

/-- The library calls a deleter makes when it is run on a pointer. -/
def Deleter.run {Options : Type} : Deleter → Option Nat → List (LibCall Options)
  | .noop, _ => []
  | .externalDelete, delegate => [LibCall.Delete delegate]

/-- The type `TfLiteDelegatePtr`: a delegate pointer together with its deleter. -/
structure TfLiteDelegatePtr where
  delegate : Option Nat
  deleter : Deleter
  deriving DecidableEq, Repr

/-- The library calls made when a `TfLiteDelegatePtr` is released (destroyed or
reset): a `std::unique_ptr` runs its deleter on the pointer it holds only when
that pointer is not null. -/
def TfLiteDelegatePtr.release {Options : Type} (handle : TfLiteDelegatePtr) :
    List (LibCall Options) :=
  match handle.delegate with
  | none => []
  | some a => handle.deleter.run (some a)

/-- The character that ends a C string. -/
def NUL : Char := Char.ofNat 0

/-- What a callee that reads the pointer `s.c_str()` as a NUL-terminated string
sees: the characters of `s` before its first NUL. -/
def c_str_read (s : List Char) : List Char :=
  s.takeWhile (fun c => c ≠ NUL)

/-! ## `CreateTfLiteDelegate` -/

/-- The body of the loop over the options, up to the call: `key_value` is
`SplitString(option, ':')`, and when `key_value.size() == 2` the arguments of
the insert call are `key_value[0]` and `key_value[1]`. -/
def insertArgs (option : List Char) : Option (List Char × List Char) :=
  let key_value := SplitString option ':'
  if key_value.length = 2 then some (key_value.getD 0 [], key_value.getD 1 []) else none

/-- The state of the loop over the options: the local `delegate_options`, the
world, and the library calls made so far. -/
structure LoopState (World Options : Type) where
  delegate_options : Options
  world : World
  calls : List (LibCall Options)

/-- One iteration of `for (const auto& option : options)`.  The vector
`key_value` is built, which gives the addresses of its elements; when it has
two elements `insert` is called with `key_value[0].c_str()` and
`key_value[1].c_str()`, pointers into that vector, and the status it returns
is dropped; at the end of the iteration `key_value` is destroyed.  The vectors
`keys` and `values` declared before the loop are never used, so nothing keeps
the two buffers alive after the iteration. -/
def applyOption {World Options : Type} (lib : ExternalDelegateLib World Options)
    (alloc : Allocator World) (st : LoopState World Options) (option : List Char) :
    LoopState World Options :=
  let key_value := SplitString option ':'
  let built := alloc.construct_key_value st.world key_value
  let called : LoopState World Options :=
    match insertArgs option with
    | some (key, value) =>
      let key_ptr : CharPtr := { addr := built.1.getD 0 0, text := key }
      let value_ptr : CharPtr := { addr := built.1.getD 1 0, text := value }
      let r := lib.insert built.2 st.delegate_options key_ptr value_ptr
      { delegate_options := r.2.1, world := r.2.2,
        calls := st.calls ++ [LibCall.Insert key_ptr value_ptr] }
    | none => { st with world := built.2 }
  { called with world := alloc.destroy_key_value called.world built.1 }

/-- What a run of `CreateTfLiteDelegate` gives: the handle it returns, or the
failure that leaves it; the library calls it made, in order; and the world it
leaves. -/
structure Outcome (World Options : Type) where
  result : Except LoadFailure TfLiteDelegatePtr
  calls : List (LibCall Options)
  world : World

/-- The method `ExternalDelegateProvider::CreateTfLiteDelegate(params)`, run in
the world `w`.  The body has no handler, so a failure of
`TfLiteExternalDelegateOptionsDefault` leaves the method at once. -/
def CreateTfLiteDelegate {World Options : Type} (lib : ExternalDelegateLib World Options)
    (alloc : Allocator World) (params : ToolParams) (w : World) : Outcome World Options :=
  let delegate : TfLiteDelegatePtr := { delegate := none, deleter := Deleter.noop }
  let lib_path := params.external_delegate_path
  if !lib_path.isEmpty then
    match TfLiteExternalDelegateOptionsDefault lib w lib_path with
    | Except.error e =>
      { result := Except.error e, calls := [LibCall.OptionsDefault lib_path], world := w }
    | Except.ok (delegate_options, w0) =>
      let options := SplitString params.external_delegate_options ';'
      let st := options.foldl (applyOption lib alloc)
        { delegate_options := delegate_options, world := w0,
          calls := [LibCall.OptionsDefault lib_path] }
      let external_delegate := lib.TfLiteExternalDelegateCreate st.world st.delegate_options
      { result := Except.ok { delegate := external_delegate.1, deleter := Deleter.externalDelete },
        calls := st.calls ++ [LibCall.Create st.delegate_options],
        world := external_delegate.2 }
  else { result := Except.ok delegate, calls := [], world := w }

/-- The state in which the loop over the options ends, when it starts from the
options value returned by `TfLiteExternalDelegateOptionsDefault`: its
`delegate_options` is the options value that results from the insert calls. -/
def loopEnd {World Options : Type} (lib : ExternalDelegateLib World Options)
    (alloc : Allocator World) (params : ToolParams) (w : World) : LoopState World Options :=
  (SplitString params.external_delegate_options ';').foldl (applyOption lib alloc)
    { delegate_options := (lib.defaultOptions w params.external_delegate_path).1,
      world := (lib.defaultOptions w params.external_delegate_path).2,
      calls := [LibCall.OptionsDefault params.external_delegate_path] }

/-- The (key, value) pairs handed to the insert entry point for an options
string, in call order: the loop of `CreateTfLiteDelegate` with the library
left out. -/
def parse (options_string : List Char) : List (List Char × List Char) :=
  (SplitString options_string ';').filterMap insertArgs

/-- The pairs of `parse` as the callee reads them from the two `c_str()`
pointers. -/
def parseRead (options_string : List Char) : List (List Char × List Char) :=
  (parse options_string).map (fun kv => (c_str_read kv.1, c_str_read kv.2))

/-! ## Definitions that follow the specification's words -/

/-- The usual split with the last segment removed when it is empty. -/
def dropLastIfEmpty (segments : List (List Char)) : List (List Char) :=
  if segments.getLast? = some [] then segments.dropLast else segments

/-- Re-serialization of accepted pairs: each pair written `key:value`, the
pairs joined with `;`. -/
def serialize (pairs : List (List Char × List Char)) : List Char :=
  [';'].intercalate (pairs.map (fun kv => kv.1 ++ ':' :: kv.2))

/-- The text of an option before its first `:`. -/
def beforeFirstColon (option : List Char) : List Char :=
  option.takeWhile (fun c => c ≠ ':')

/-- The text of an option after its first `:`. -/
def afterFirstColon (option : List Char) : List Char :=
  (option.dropWhile (fun c => c ≠ ':')).drop 1

/-- The same library with the status returned by each insert call replaced. -/
def ExternalDelegateLib.withStatus {World Options : Type}
    (lib : ExternalDelegateLib World Options)
    (status : World → Options → CharPtr → CharPtr → TfLiteStatus) :
    ExternalDelegateLib World Options :=
  { lib with insert := fun w o key value => (status w o key value, (lib.insert w o key value).2) }

/-- The handle that stands for "this provider was not requested". -/
def notRequested : TfLiteDelegatePtr :=
  { delegate := none, deleter := Deleter.noop }

/-- A field of a well-formed pair: non-empty, without `;`, `:` or NUL. -/
def wellFormedField (x : List Char) : Prop :=
  x ≠ [] ∧ ';' ∉ x ∧ ':' ∉ x ∧ NUL ∉ x

/-- The two shapes `a:b` (with `b` non-empty) and `a:b:` of an option `o`, with
`a` and `b` free of `:`. -/
def acceptedForm (o a b : List Char) : Prop :=
  ':' ∉ a ∧ ':' ∉ b ∧ ((o = a ++ ':' :: b ∧ b ≠ []) ∨ o = a ++ ':' :: (b ++ [':']))

instance (x : List Char) : Decidable (wellFormedField x) := by
  unfold wellFormedField
  infer_instance

/-- The texts of the arguments of the insert calls of a trace, in call order. -/
def insertCalls {Options : Type} (calls : List (LibCall Options)) :
    List (List Char × List Char) :=
  calls.filterMap (fun call =>
    match call with
    | LibCall.Insert key value => some (key.text, value.text)
    | _ => none)

/-- The text of the two pointers of an insert call. -/
def pointerTexts (kv : CharPtr × CharPtr) : List Char × List Char :=
  (kv.1.text, kv.2.text)

/-! ## Two libraries and an allocator for concrete runs -/

/-- The world of the concrete runs: the text last written at each address
(latest first), and the pairs the library read during
`TfLiteExternalDelegateCreate`. -/
structure ExampleWorld where
  heap : List (Nat × List Char)
  seen : List (List Char × List Char)
  deriving DecidableEq, Repr

/-- The text found at an address of the example world. -/
def ExampleWorld.read (w : ExampleWorld) (a : Nat) : List Char :=
  (w.heap.lookup a).getD []

/-- An allocator that places element `i` of every `key_value` at address `i`
and leaves the bytes of a destroyed buffer in place. -/
def slotAllocator : Allocator ExampleWorld where
  construct_key_value := fun w key_value =>
    (List.range key_value.length,
      { w with heap := (List.range key_value.length).zip key_value ++ w.heap })
  destroy_key_value := fun w _ => w

/-- A library that copies the text of each inserted pair into its options
value.  It can open `lib.so` and `null.so` only, every insert reports an
error, and creation yields a null pointer for `null.so`. -/
def copyingLib : ExternalDelegateLib ExampleWorld (List Char × List (List Char × List Char)) where
  canOpen := fun _ lib_path => lib_path = "lib.so".toList || lib_path = "null.so".toList
  defaultOptions := fun w lib_path => ((lib_path, []), w)
  insert := fun w o key value =>
    (TfLiteStatus.kTfLiteError, (o.1, o.2 ++ [(key.text, value.text)]), w)
  TfLiteExternalDelegateCreate := fun w o =>
    (if o.1 = "lib.so".toList then some 4096 else none, { w with seen := o.2 })

/-- A library that keeps the two pointers of each insert call in its options
value and reads the text through them during creation. -/
def keepingLib : ExternalDelegateLib ExampleWorld (List (Nat × Nat)) where
  canOpen := fun _ lib_path => lib_path = "lib.so".toList
  defaultOptions := fun w _ => ([], w)
  insert := fun w o key value => (TfLiteStatus.kTfLiteOk, o ++ [(key.addr, value.addr)], w)
  TfLiteExternalDelegateCreate := fun w o =>
    (some 4096, { w with seen := o.map (fun p => (w.read p.1, w.read p.2)) })

/-- The world in which the concrete runs start. -/
def emptyWorld : ExampleWorld :=
  { heap := [], seen := [] }

/-! ## `SplitString` is the usual split without a trailing empty segment -/

theorem getlineChars_no_delimiter (d : Char) (a : List Char) (h : d ∉ a) :
    getlineChars d a = (a, [], true) := by
  induction a with
  | nil => rfl
  | cons c cs ih =>
    have hc : c ≠ d := fun e => h (by simp [e])
    have hcs : d ∉ cs := fun e => h (List.mem_cons_of_mem _ e)
    simp [getlineChars, hc, ih hcs]

theorem getlineChars_delimiter (d : Char) (a r : List Char) (h : d ∉ a) :
    getlineChars d (a ++ d :: r) = (a, r, false) := by
  induction a with
  | nil => simp [getlineChars]
  | cons c cs ih =>
    have hc : c ≠ d := fun e => h (by simp [e])
    have hcs : d ∉ cs := fun e => h (List.mem_cons_of_mem _ e)
    simp [getlineChars, hc, ih hcs]

/-- One iteration on a good stream whose buffer holds a delimiter: the text
before the first delimiter is pushed and the loop goes on after it. -/
theorem SplitStringLoop_delimiter (d : Char) (fuel : Nat) (a r token : List Char)
    (tokens : List (List Char)) (h : d ∉ a) :
    SplitStringLoop d (fuel + 1) { buf := a ++ d :: r, eofbit := false, failbit := false }
        token tokens
      = SplitStringLoop d fuel { buf := r, eofbit := false, failbit := false } a
          (tokens ++ [a]) := by
  simp [SplitStringLoop, getline, getlineChars_delimiter d a r h]

/-- On a good stream whose non-empty buffer holds no delimiter, the buffer is
pushed as the last token: the next `getline` finds `eofbit` set and fails. -/
theorem SplitStringLoop_last (d : Char) (fuel : Nat) (a token : List Char)
    (tokens : List (List Char)) (h : d ∉ a) (hne : a ≠ []) :
    SplitStringLoop d (fuel + 2) { buf := a, eofbit := false, failbit := false } token tokens
      = some (tokens ++ [a]) := by
  simp [SplitStringLoop, getline, getlineChars_no_delimiter d a h, hne]

/-- On a good stream with an empty buffer `getline` extracts nothing and fails. -/
theorem SplitStringLoop_empty (d : Char) (fuel : Nat) (token : List Char)
    (tokens : List (List Char)) :
    SplitStringLoop d (fuel + 1) { buf := [], eofbit := false, failbit := false } token tokens
      = some tokens := by
  simp [SplitStringLoop, getline, getlineChars]

theorem dropLastIfEmpty_cons (a : List Char) (l : List (List Char)) (hl : l ≠ []) :
    dropLastIfEmpty (a :: l) = a :: dropLastIfEmpty l := by
  cases l with
  | nil => exact absurd rfl hl
  | cons b l =>
    unfold dropLastIfEmpty
    rw [List.getLast?_cons_cons]
    split <;> simp

theorem dropLastIfEmpty_single (a : List Char) :
    dropLastIfEmpty [a] = if a = [] then [] else [a] := by
  unfold dropLastIfEmpty
  by_cases h : a = [] <;> simp [h]

theorem splitOn_no_delimiter (d : Char) (a : List Char) (h : d ∉ a) :
    a.splitOn d = [a] := by
  unfold List.splitOn
  apply List.splitOnP_eq_single
  intro x hx hxd
  have : x = d := by simpa using hxd
  exact h (this ▸ hx)

theorem splitOn_delimiter (d : Char) (a r : List Char) (h : d ∉ a) :
    (a ++ d :: r).splitOn d = a :: r.splitOn d := by
  unfold List.splitOn
  apply List.splitOnP_first
  · intro x hx hxd
    have : x = d := by simpa using hxd
    exact h (this ▸ hx)
  · simp

theorem splitOn_ne_nil (d : Char) (s : List Char) : s.splitOn d ≠ [] := by
  unfold List.splitOn
  exact List.splitOnP_ne_nil _ _

/-- The loop on a fresh stream over `s` finishes within `s.length + 1`
evaluations of its condition and appends the usual split of `s`, less an empty
last segment, to the tokens. -/
theorem SplitStringLoop_eq (d : Char) (fuel : Nat) :
    ∀ (s token : List Char) (tokens : List (List Char)), s.length < fuel →
      SplitStringLoop d fuel { buf := s, eofbit := false, failbit := false } token tokens
        = some (tokens ++ dropLastIfEmpty (s.splitOn d)) := by
  induction fuel with
  | zero => intro s token tokens h; exact absurd h (Nat.not_lt_zero _)
  | succ n ih =>
    intro s token tokens hlen
    by_cases hd : d ∈ s
    · obtain ⟨a, r, rfl, ha⟩ := List.eq_append_cons_of_mem hd
      rw [SplitStringLoop_delimiter d n a r token tokens ha, splitOn_delimiter d a r ha,
        dropLastIfEmpty_cons a _ (splitOn_ne_nil d r)]
      have hr : r.length < n := by
        simp only [List.length_append, List.length_cons] at hlen
        omega
      rw [ih r a (tokens ++ [a]) hr]
      simp
    · rw [splitOn_no_delimiter d s hd, dropLastIfEmpty_single]
      by_cases hs : s = []
      · subst hs
        simp [SplitStringLoop_empty]
      · obtain ⟨m, rfl⟩ : ∃ m, n = m + 1 := by
          cases n with
          | zero =>
            cases s with
            | nil => exact absurd rfl hs
            | cons c cs => simp at hlen
          | succ m => exact ⟨m, rfl⟩
        rw [SplitStringLoop_last d m s token tokens hd hs]
        simp [hs]

theorem SplitStringFuel_eq (fuel : Nat) (s : List Char) (d : Char) (h : s.length < fuel) :
    SplitStringFuel fuel s d = some (dropLastIfEmpty (s.splitOn d)) := by
  unfold SplitStringFuel IStringStream.mk_from
  rw [SplitStringLoop_eq d fuel s [] [] h]
  simp

theorem SplitString_eq (s : List Char) (d : Char) :
    SplitString s d = dropLastIfEmpty (s.splitOn d) := by
  unfold SplitString
  rw [SplitStringFuel_eq (s.length + 1) s d (Nat.lt_succ_self _)]
  rfl

theorem SplitString_nil (d : Char) : SplitString [] d = [] := by
  rw [SplitString_eq]
  simp [dropLastIfEmpty]

theorem SplitString_no_delimiter (d : Char) (a : List Char) (h : d ∉ a) :
    SplitString a d = if a = [] then [] else [a] := by
  rw [SplitString_eq, splitOn_no_delimiter d a h, dropLastIfEmpty_single]

theorem SplitString_delimiter (d : Char) (a r : List Char) (h : d ∉ a) :
    SplitString (a ++ d :: r) d = a :: SplitString r d := by
  rw [SplitString_eq, splitOn_delimiter d a r h,
    dropLastIfEmpty_cons a _ (splitOn_ne_nil d r), SplitString_eq]

theorem SplitString_eq_nil_iff (d : Char) (s : List Char) : SplitString s d = [] ↔ s = [] := by
  by_cases hd : d ∈ s
  · obtain ⟨a, r, rfl, ha⟩ := List.eq_append_cons_of_mem hd
    rw [SplitString_delimiter d a r ha]
    simp
  · rw [SplitString_no_delimiter d s hd]
    by_cases hs : s = [] <;> simp [hs]

theorem takeWhile_first_delimiter (d : Char) (a r : List Char) (h : d ∉ a) :
    (a ++ d :: r).takeWhile (fun c => c ≠ d) = a := by
  induction a with
  | nil => simp
  | cons c cs ih =>
    have hc : c ≠ d := fun e => h (by simp [e])
    have hcs : d ∉ cs := fun e => h (List.mem_cons_of_mem _ e)
    simpa [List.takeWhile_cons, hc] using ih hcs

theorem dropWhile_first_delimiter (d : Char) (a r : List Char) (h : d ∉ a) :
    (a ++ d :: r).dropWhile (fun c => c ≠ d) = d :: r := by
  induction a with
  | nil => simp
  | cons c cs ih =>
    have hc : c ≠ d := fun e => h (by simp [e])
    have hcs : d ∉ cs := fun e => h (List.mem_cons_of_mem _ e)
    simpa [List.dropWhile_cons, hc] using ih hcs

/-- The decomposition of a string at its first delimiter is unique. -/
theorem first_delimiter_unique (d : Char) (a r a2 r2 : List Char) (h : d ∉ a) (h2 : d ∉ a2)
    (e : a ++ d :: r = a2 ++ d :: r2) : a = a2 ∧ r = r2 := by
  have ht := congrArg (fun l => l.takeWhile (fun c => c ≠ d)) e
  have hd := congrArg (fun l => l.dropWhile (fun c => c ≠ d)) e
  simp only [takeWhile_first_delimiter d a r h, takeWhile_first_delimiter d a2 r2 h2] at ht
  simp only [dropWhile_first_delimiter d a r h, dropWhile_first_delimiter d a2 r2 h2] at hd
  exact ⟨ht, by simpa using hd⟩

/-- When `SplitString` yields exactly one token. -/
theorem SplitString_eq_singleton_iff (d : Char) (r v : List Char) :
    SplitString r d = [v] ↔ d ∉ v ∧ ((r = v ∧ v ≠ []) ∨ r = v ++ [d]) := by
  by_cases hd : d ∈ r
  · obtain ⟨a, c, rfl, ha⟩ := List.eq_append_cons_of_mem hd
    rw [SplitString_delimiter d a c ha]
    constructor
    · intro h
      simp only [List.cons.injEq, SplitString_eq_nil_iff] at h
      obtain ⟨rfl, rfl⟩ := h
      exact ⟨ha, Or.inr rfl⟩
    · rintro ⟨hv, h | h⟩
      · exact absurd (h.1 ▸ hd) hv
      · obtain ⟨rfl, rfl⟩ := first_delimiter_unique d a c v [] ha hv h
        simp [SplitString_nil]
  · rw [SplitString_no_delimiter d r hd]
    constructor
    · intro h
      by_cases hr : r = []
      · simp [hr] at h
      · simp only [hr, if_false, List.cons.injEq, and_true] at h
        subst h
        exact ⟨hd, Or.inl ⟨rfl, hr⟩⟩
    · rintro ⟨hv, h | h⟩
      · obtain ⟨rfl, hne⟩ := h
        simp [hne]
      · exact absurd (by simp [h]) hd

/-! ## The acceptance test of one option -/

theorem insertArgs_no_colon (o : List Char) (h : ':' ∉ o) : insertArgs o = none := by
  unfold insertArgs
  rw [SplitString_no_delimiter ':' o h]
  by_cases ho : o = [] <;> simp [ho]

theorem insertArgs_colon (a r : List Char) (p : List Char × List Char) (h : ':' ∉ a) :
    insertArgs (a ++ ':' :: r) = some p ↔ p.1 = a ∧ SplitString r ':' = [p.2] := by
  unfold insertArgs
  rw [SplitString_delimiter ':' a r h]
  rcases p with ⟨k, v⟩
  cases hs : SplitString r ':' with
  | nil => simp
  | cons t ts =>
    cases ts with
    | nil => simp [eq_comm]
    | cons t2 ts2 => simp

/-- The exact shape of an option for which an insert call is made, and the
arguments of that call. -/
theorem insertArgs_eq_some_iff (o : List Char) (p : List Char × List Char) :
    insertArgs o = some p ↔
      ∃ a b, ':' ∉ a ∧ ':' ∉ b ∧ p = (a, b) ∧
        ((o = a ++ ':' :: b ∧ b ≠ []) ∨ o = a ++ ':' :: (b ++ [':'])) := by
  by_cases hd : ':' ∈ o
  · obtain ⟨a, r, rfl, ha⟩ := List.eq_append_cons_of_mem hd
    rw [insertArgs_colon a r p ha, SplitString_eq_singleton_iff]
    constructor
    · rintro ⟨h1, hv, h | h⟩
      · exact ⟨a, p.2, ha, hv, by rw [← h1], Or.inl ⟨by rw [h.1], h.2⟩⟩
      · exact ⟨a, p.2, ha, hv, by rw [← h1], Or.inr (by rw [h])⟩
    · rintro ⟨a2, b, ha2, hb, rfl, h | h⟩
      · obtain ⟨rfl, rfl⟩ := first_delimiter_unique ':' a r a2 b ha ha2 h.1
        exact ⟨rfl, hb, Or.inl ⟨rfl, h.2⟩⟩
      · obtain ⟨rfl, rfl⟩ := first_delimiter_unique ':' a r a2 (b ++ [':']) ha ha2 h
        exact ⟨rfl, hb, Or.inr rfl⟩
  · rw [insertArgs_no_colon o hd]
    constructor
    · intro h
      exact absurd h (by simp)
    · rintro ⟨a, b, -, -, -, h | h⟩
      · exact absurd (by simp [h.1]) hd
      · exact absurd (by simp [h]) hd

/-! ## The pairs applied for an options string -/

theorem insertArgs_nil : insertArgs [] = none :=
  insertArgs_no_colon [] (by simp)

theorem filterMap_dropLastIfEmpty (l : List (List Char)) :
    (dropLastIfEmpty l).filterMap insertArgs = l.filterMap insertArgs := by
  unfold dropLastIfEmpty
  split
  · next h =>
    have hl : l.dropLast ++ [[]] = l := List.dropLast_append_getLast? [] (by simp [h])
    conv_rhs => rw [← hl]
    simp [insertArgs_nil]
  · rfl

/-- The applied pairs are those of the segments of the usual split on `;`: the
segment that `SplitString` leaves out is empty and yields no pair. -/
theorem parse_eq_splitOn (s : List Char) :
    parse s = (s.splitOn ';').filterMap insertArgs := by
  unfold parse
  rw [SplitString_eq, filterMap_dropLastIfEmpty]

theorem splitOn_cons (d c : Char) (s : List Char) :
    (c :: s).splitOn d
      = if c = d then [] :: s.splitOn d else (s.splitOn d).modifyHead (fun seg => c :: seg) := by
  unfold List.splitOn
  rw [List.splitOnP_cons]
  by_cases h : c = d <;> simp [h]

theorem splitOn_append_cons (d : Char) (s1 s2 : List Char) :
    (s1 ++ d :: s2).splitOn d = s1.splitOn d ++ s2.splitOn d := by
  induction s1 with
  | nil => simp [splitOn_cons]
  | cons c cs ih =>
    rw [List.cons_append, splitOn_cons, splitOn_cons, ih]
    by_cases h : c = d
    · simp [h]
    · simp only [h, if_false]
      cases hs : cs.splitOn d with
      | nil => exact absurd hs (splitOn_ne_nil d cs)
      | cons seg segs => rfl

theorem parse_append (s1 s2 : List Char) :
    parse (s1 ++ ';' :: s2) = parse s1 ++ parse s2 := by
  simp only [parse_eq_splitOn, splitOn_append_cons, List.filterMap_append]

/-- For an options string that is a single option, the applied pairs are the
arguments of its insert call, if it makes one. -/
theorem parse_option (o : List Char) (h : ';' ∉ o) : parse o = (insertArgs o).toList := by
  rw [parse_eq_splitOn, splitOn_no_delimiter ';' o h]
  cases hi : insertArgs o <;> simp [List.filterMap_cons, hi]

/-! ## Segments and tokens hold no delimiter -/

theorem splitOn_segment (d : Char) (s : List Char) :
    ∀ seg ∈ s.splitOn d, d ∉ seg ∧ ∀ c ∈ seg, c ∈ s := by
  induction s with
  | nil => simp
  | cons c cs ih =>
    rw [splitOn_cons]
    by_cases h : c = d
    · simp only [h, if_true]
      intro seg hseg
      rcases List.mem_cons.mp hseg with rfl | hseg
      · simp
      · exact ⟨(ih seg hseg).1, fun x hx => List.mem_cons_of_mem _ ((ih seg hseg).2 x hx)⟩
    · simp only [h, if_false]
      cases hs : cs.splitOn d with
      | nil => simp
      | cons hd tl =>
        rw [hs] at ih
        intro seg hseg
        rw [List.modifyHead_cons] at hseg
        rcases List.mem_cons.mp hseg with rfl | hseg
        · have hhd := ih hd (List.mem_cons_self _ _)
          refine ⟨?_, ?_⟩
          · intro hmem
            rcases List.mem_cons.mp hmem with e | e
            · exact h e.symm
            · exact hhd.1 e
          · intro x hx
            rcases List.mem_cons.mp hx with e | e
            · exact e ▸ List.mem_cons_self _ _
            · exact List.mem_cons_of_mem _ (hhd.2 x e)
        · have htl := ih seg (List.mem_cons_of_mem _ hseg)
          exact ⟨htl.1, fun x hx => List.mem_cons_of_mem _ (htl.2 x hx)⟩

theorem length_splitOn (d : Char) (s : List Char) :
    (s.splitOn d).length = s.count d + 1 := by
  induction s with
  | nil => simp
  | cons c cs ih =>
    rw [splitOn_cons]
    by_cases h : c = d
    · simp [h, ih]
    · simp [h, ih, List.count_cons]

theorem mem_dropLastIfEmpty (l : List (List Char)) (t : List Char)
    (h : t ∈ dropLastIfEmpty l) : t ∈ l := by
  unfold dropLastIfEmpty at h
  split at h
  · exact List.mem_of_mem_dropLast h
  · exact h

theorem mem_SplitString (d : Char) (s t : List Char) (h : t ∈ SplitString s d) :
    d ∉ t ∧ ∀ c ∈ t, c ∈ s := by
  rw [SplitString_eq] at h
  exact splitOn_segment d s t (mem_dropLastIfEmpty _ t h)

/-- Every applied key and value is free of both delimiters. -/
theorem mem_parse_fields (s : List Char) (kv : List Char × List Char) (h : kv ∈ parse s) :
    ';' ∉ kv.1 ∧ ':' ∉ kv.1 ∧ ';' ∉ kv.2 ∧ ':' ∉ kv.2 := by
  unfold parse at h
  obtain ⟨o, ho, hkv⟩ := List.mem_filterMap.mp h
  have hsemi := (mem_SplitString ';' s o ho).1
  obtain ⟨a, b, ha, hb, rfl, hform | hform⟩ := (insertArgs_eq_some_iff o kv).mp hkv
  · refine ⟨fun e => hsemi ?_, ha, fun e => hsemi ?_, hb⟩
    · simp [hform.1, e]
    · simp [hform.1, e]
  · refine ⟨fun e => hsemi ?_, ha, fun e => hsemi ?_, hb⟩
    · simp [hform, e]
    · simp [hform, e]

/-! ## Re-serialization -/

theorem insertArgs_key_value (k v : List Char) (hk : ':' ∉ k) (hv : ':' ∉ v) :
    insertArgs (k ++ ':' :: v) = if v = [] then none else some (k, v) := by
  unfold insertArgs
  rw [SplitString_delimiter ':' k v hk, SplitString_no_delimiter ':' v hv]
  by_cases h : v = [] <;> simp [h]

theorem filterMap_insertArgs_map (pairs : List (List Char × List Char))
    (h : ∀ kv ∈ pairs, ':' ∉ kv.1 ∧ ':' ∉ kv.2) :
    (pairs.map (fun kv => kv.1 ++ ':' :: kv.2)).filterMap insertArgs
      = pairs.filter (fun kv => decide (kv.2 ≠ [])) := by
  induction pairs with
  | nil => rfl
  | cons kv rest ih =>
    have hkv := h kv (List.mem_cons_self _ _)
    have hrest := ih (fun x hx => h x (List.mem_cons_of_mem _ hx))
    rw [List.map_cons, List.filterMap_cons, insertArgs_key_value kv.1 kv.2 hkv.1 hkv.2]
    by_cases hv : kv.2 = []
    · simp [hv, hrest, List.filter_cons]
    · simp [hv, hrest, List.filter_cons]

/-- Parsing a re-serialization gives back the pairs whose value is not empty,
when no field holds a delimiter. -/
theorem parse_serialize (pairs : List (List Char × List Char))
    (h : ∀ kv ∈ pairs, ';' ∉ kv.1 ∧ ':' ∉ kv.1 ∧ ';' ∉ kv.2 ∧ ':' ∉ kv.2) :
    parse (serialize pairs) = pairs.filter (fun kv => decide (kv.2 ≠ [])) := by
  rw [parse_eq_splitOn]
  by_cases hp : pairs = []
  · subst hp
    simp [serialize, List.intercalate, insertArgs_nil]
  · unfold serialize
    rw [List.splitOn_intercalate _ ';' _ (by simpa using hp)]
    · exact filterMap_insertArgs_map pairs (fun kv hkv => ⟨(h kv hkv).2.1, (h kv hkv).2.2.2⟩)
    · intro l hl
      obtain ⟨kv, hkv, rfl⟩ := List.mem_map.mp hl
      have := h kv hkv
      simp [this.1, this.2.2.1]

/-! ## The calls made by `CreateTfLiteDelegate` -/

/-- One iteration adds the insert call of its option, if the option has one,
and no other call. -/
theorem applyOption_calls {World Options : Type} (lib : ExternalDelegateLib World Options)
    (alloc : Allocator World) (st : LoopState World Options) (option : List Char) :
    ∃ ptrs : List (CharPtr × CharPtr),
      (applyOption lib alloc st option).calls
          = st.calls ++ ptrs.map (fun kv => LibCall.Insert kv.1 kv.2)
        ∧ ptrs.map pointerTexts = (insertArgs option).toList := by
  cases hi : insertArgs option with
  | none => exact ⟨[], by simp [applyOption, hi], rfl⟩
  | some kv =>
    rcases kv with ⟨key, value⟩
    refine ⟨[({ addr := (alloc.construct_key_value st.world (SplitString option ':')).1.getD 0 0,
                text := key },
              { addr := (alloc.construct_key_value st.world (SplitString option ':')).1.getD 1 0,
                text := value })], ?_, rfl⟩
    simp [applyOption, hi]

theorem foldl_applyOption_calls {World Options : Type} (lib : ExternalDelegateLib World Options)
    (alloc : Allocator World) (options : List (List Char)) :
    ∀ st : LoopState World Options,
      ∃ ptrs : List (CharPtr × CharPtr),
        (options.foldl (applyOption lib alloc) st).calls
            = st.calls ++ ptrs.map (fun kv => LibCall.Insert kv.1 kv.2)
          ∧ ptrs.map pointerTexts = options.filterMap insertArgs := by
  induction options with
  | nil => intro st; exact ⟨[], by simp, rfl⟩
  | cons o rest ih =>
    intro st
    obtain ⟨p1, hc1, ht1⟩ := applyOption_calls lib alloc st o
    obtain ⟨p2, hc2, ht2⟩ := ih (applyOption lib alloc st o)
    refine ⟨p1 ++ p2, ?_, ?_⟩
    · rw [List.foldl_cons, hc2, hc1, List.map_append, List.append_assoc]
    · rw [List.map_append, ht1, ht2]
      cases hi : insertArgs o <;> simp [List.filterMap_cons, hi]

/-- For a library that makes the new options value out of the old one and the
two texts alone, the loop leaves the fold of the inserted pairs. -/
theorem foldl_applyOption_copies {World Options : Type} (lib : ExternalDelegateLib World Options)
    (alloc : Allocator World) (ins : Options → List Char → List Char → Options)
    (hcopy : ∀ w o key value, (lib.insert w o key value).2.1 = ins o key.text value.text)
    (options : List (List Char)) :
    ∀ st : LoopState World Options,
      (options.foldl (applyOption lib alloc) st).delegate_options
        = (options.filterMap insertArgs).foldl (fun o kv => ins o kv.1 kv.2)
            st.delegate_options := by
  induction options with
  | nil => intro st; rfl
  | cons o rest ih =>
    intro st
    rw [List.foldl_cons, ih]
    cases hi : insertArgs o with
    | none => simp [applyOption, hi, List.filterMap_cons]
    | some kv =>
      rcases kv with ⟨key, value⟩
      simp [applyOption, hi, List.filterMap_cons, hcopy]

theorem applyOption_withStatus {World Options : Type} (lib : ExternalDelegateLib World Options)
    (alloc : Allocator World) (status : World → Options → CharPtr → CharPtr → TfLiteStatus) :
    applyOption (lib.withStatus status) alloc = applyOption lib alloc := by
  funext st option
  cases hi : insertArgs option with
  | none => simp [applyOption, hi]
  | some kv =>
    rcases kv with ⟨key, value⟩
    simp [applyOption, hi, ExternalDelegateLib.withStatus]

theorem isEmpty_eq_false_of_ne_nil (s : List Char) (h : s ≠ []) : s.isEmpty = false := by
  cases s with
  | nil => exact absurd rfl h
  | cons c cs => rfl

/-- With a non-empty path whose library can be opened, the method runs the
loop from the default options and ends with the creation call. -/
theorem CreateTfLiteDelegate_opened {World Options : Type}
    (lib : ExternalDelegateLib World Options) (alloc : Allocator World) (params : ToolParams)
    (w : World) (h : params.external_delegate_path ≠ [])
    (hopen : lib.canOpen w params.external_delegate_path = true) :
    CreateTfLiteDelegate lib alloc params w
      = { result := Except.ok
            { delegate := (lib.TfLiteExternalDelegateCreate (loopEnd lib alloc params w).world
                (loopEnd lib alloc params w).delegate_options).1,
              deleter := Deleter.externalDelete },
          calls := (loopEnd lib alloc params w).calls
            ++ [LibCall.Create (loopEnd lib alloc params w).delegate_options],
          world := (lib.TfLiteExternalDelegateCreate (loopEnd lib alloc params w).world
            (loopEnd lib alloc params w).delegate_options).2 } := by
  simp [CreateTfLiteDelegate, TfLiteExternalDelegateOptionsDefault, loopEnd,
    isEmpty_eq_false_of_ne_nil _ h, hopen]

/-- With a non-empty path whose library can be opened, the calls are the
loading call, the insert calls, whose texts are `parse` of the options string,
and the creation call. -/
theorem CreateTfLiteDelegate_nonempty {World Options : Type}
    (lib : ExternalDelegateLib World Options) (alloc : Allocator World) (params : ToolParams)
    (w : World) (h : params.external_delegate_path ≠ [])
    (hopen : lib.canOpen w params.external_delegate_path = true) :
    ∃ ptrs : List (CharPtr × CharPtr),
      (CreateTfLiteDelegate lib alloc params w).calls
          = [LibCall.OptionsDefault params.external_delegate_path]
            ++ ptrs.map (fun kv => LibCall.Insert kv.1 kv.2)
            ++ [LibCall.Create (loopEnd lib alloc params w).delegate_options]
        ∧ ptrs.map pointerTexts = parse params.external_delegate_options := by
  obtain ⟨ptrs, hc, ht⟩ := foldl_applyOption_calls lib alloc
    (SplitString params.external_delegate_options ';')
    { delegate_options := (lib.defaultOptions w params.external_delegate_path).1,
      world := (lib.defaultOptions w params.external_delegate_path).2,
      calls := [LibCall.OptionsDefault params.external_delegate_path] }
  refine ⟨ptrs, ?_, ht⟩
  rw [CreateTfLiteDelegate_opened lib alloc params w h hopen]
  simp only [loopEnd]
  rw [hc]

theorem insertCalls_shape {Options : Type} (lib_path : List Char)
    (ptrs : List (CharPtr × CharPtr)) (delegate_options : Options) :
    insertCalls ([LibCall.OptionsDefault lib_path]
        ++ ptrs.map (fun kv => LibCall.Insert kv.1 kv.2)
        ++ [LibCall.Create delegate_options])
      = ptrs.map pointerTexts := by
  induction ptrs with
  | nil => rfl
  | cons kv rest ih =>
    simp only [insertCalls, List.map_cons, List.filterMap_cons, List.filterMap_append,
      List.singleton_append, List.cons_append, List.filterMap_nil, List.append_nil,
      List.nil_append] at ih ⊢
    rw [ih]
    rfl

/-- With a non-empty path whose library cannot be opened, the loading call is
the only call and its failure is the outcome. -/
theorem CreateTfLiteDelegate_not_opened {World Options : Type}
    (lib : ExternalDelegateLib World Options) (alloc : Allocator World) (params : ToolParams)
    (w : World) (h : params.external_delegate_path ≠ [])
    (hopen : lib.canOpen w params.external_delegate_path = false) :
    CreateTfLiteDelegate lib alloc params w
      = { result := Except.error LoadFailure.LibraryLoadError,
          calls := [LibCall.OptionsDefault params.external_delegate_path],
          world := w } := by
  simp [CreateTfLiteDelegate, TfLiteExternalDelegateOptionsDefault,
    isEmpty_eq_false_of_ne_nil _ h, hopen]

theorem c_str_read_no_NUL (x : List Char) (h : NUL ∉ x) : c_str_read x = x := by
  unfold c_str_read
  rw [List.takeWhile_eq_self_iff]
  intro c hc
  simpa using fun e : c = NUL => h (e ▸ hc)

theorem count_colon_one (a b : List Char) (ha : ':' ∉ a) (hb : ':' ∉ b) :
    (a ++ ':' :: b).count ':' = 1 := by
  simp [List.count_append, List.count_cons, List.count_eq_zero.mpr ha, List.count_eq_zero.mpr hb]

theorem count_colon_two (a b : List Char) (ha : ':' ∉ a) (hb : ':' ∉ b) :
    (a ++ ':' :: (b ++ [':'])).count ':' = 2 := by
  simp [List.count_append, List.count_cons, List.count_eq_zero.mpr ha, List.count_eq_zero.mpr hb]

theorem getLast?_colon_two (a b : List Char) :
    (a ++ ':' :: (b ++ [':'])).getLast? = some ':' := by
  have e : a ++ ':' :: (b ++ [':']) = (a ++ ':' :: b) ++ [':'] := by simp
  rw [e, List.getLast?_append]
  rfl

theorem beforeFirstColon_colon (a r : List Char) (h : ':' ∉ a) :
    beforeFirstColon (a ++ ':' :: r) = a := by
  unfold beforeFirstColon
  exact takeWhile_first_delimiter ':' a r h

theorem afterFirstColon_colon (a r : List Char) (h : ':' ∉ a) :
    afterFirstColon (a ++ ':' :: r) = r := by
  unfold afterFirstColon
  rw [dropWhile_first_delimiter ':' a r h]
  rfl

theorem length_SplitString_eq_two_iff (o : List Char) :
    (SplitString o ':').length = 2 ↔ ∃ p, insertArgs o = some p := by
  unfold insertArgs
  by_cases h : (SplitString o ':').length = 2 <;> simp [h]

theorem dropLastIfEmpty_append_nil (l : List (List Char)) :
    dropLastIfEmpty (l ++ [[]]) = l := by
  unfold dropLastIfEmpty
  simp

/-! ## Delegate creation -/

/-- C1: when `external_delegate_path` is the empty string, whatever
`external_delegate_options` holds, `CreateTfLiteDelegate` returns the handle
with a null delegate pointer and the no-op release action, and it makes no
library call at all (no `TfLiteExternalDelegateOptionsDefault`, no insert, no
`TfLiteExternalDelegateCreate`); the no-op release action calls nothing, and
neither does the release of the handle.  The world is left as it was. -/
theorem CreateTfLiteDelegate_empty_path {World Options : Type}
    (lib : ExternalDelegateLib World Options) (alloc : Allocator World) (params : ToolParams)
    (w : World) (h : params.external_delegate_path = []) :
    (CreateTfLiteDelegate lib alloc params w).result
        = Except.ok { delegate := none, deleter := Deleter.noop }
      ∧ (CreateTfLiteDelegate lib alloc params w).calls = []
      ∧ (∀ delegate, (Deleter.noop.run delegate : List (LibCall Options)) = [])
      ∧ (CreateTfLiteDelegate lib alloc params w).world = w
      ∧ (∀ handle, (CreateTfLiteDelegate lib alloc params w).result = Except.ok handle →
          (handle.release : List (LibCall Options)) = []) := by
  have hrun : CreateTfLiteDelegate lib alloc params w
      = { result := Except.ok { delegate := none, deleter := Deleter.noop },
          calls := [], world := w } := by
    simp [CreateTfLiteDelegate, h]
  rw [hrun]
  refine ⟨rfl, rfl, fun _ => rfl, rfl, ?_⟩
  intro handle hh
  cases hh
  rfl

theorem CreateTfLiteDelegate_empty_path_witness :
    (({ external_delegate_path := [], external_delegate_options := "a:1;b:2".toList } :
          ToolParams).external_delegate_path = [])
      ∧ (CreateTfLiteDelegate copyingLib slotAllocator
          { external_delegate_path := [], external_delegate_options := "a:1;b:2".toList }
          emptyWorld).result
          = Except.ok { delegate := none, deleter := Deleter.noop }
      ∧ (CreateTfLiteDelegate copyingLib slotAllocator
          { external_delegate_path := [], external_delegate_options := "a:1;b:2".toList }
          emptyWorld).calls = [] :=
  ⟨rfl,
    (CreateTfLiteDelegate_empty_path copyingLib slotAllocator
      { external_delegate_path := [], external_delegate_options := "a:1;b:2".toList }
      emptyWorld rfl).1,
    (CreateTfLiteDelegate_empty_path copyingLib slotAllocator
      { external_delegate_path := [], external_delegate_options := "a:1;b:2".toList }
      emptyWorld rfl).2.1⟩

/-- C4 as stated fails in two places.  For the non-empty path
`/no/such/lib.so`, which the library cannot open, the loading call is the only
call: no `TfLiteExternalDelegateCreate` follows.  And for `null.so`, for which
creation yields a null pointer, releasing the returned handle does not call
`TfLiteExternalDelegateDelete`. -/
theorem CreateTfLiteDelegate_calls_not_always :
    (¬ ∀ params : ToolParams, params.external_delegate_path ≠ [] →
        ∃ (ptrs : List (CharPtr × CharPtr))
          (delegate_options : List Char × List (List Char × List Char)),
          (CreateTfLiteDelegate copyingLib slotAllocator params emptyWorld).calls
            = [LibCall.OptionsDefault params.external_delegate_path]
              ++ ptrs.map (fun kv => LibCall.Insert kv.1 kv.2)
              ++ [LibCall.Create delegate_options])
      ∧ (¬ ∀ params : ToolParams, params.external_delegate_path ≠ [] →
          ∀ handle, (CreateTfLiteDelegate copyingLib slotAllocator params emptyWorld).result
              = Except.ok handle →
            (handle.release : List (LibCall (List Char × List (List Char × List Char))))
              = [LibCall.Delete handle.delegate]) := by
  constructor
  · intro hall
    obtain ⟨ptrs, delegate_options, hc⟩ := hall
      { external_delegate_path := "/no/such/lib.so".toList, external_delegate_options := [] }
      (by decide)
    have hlen := congrArg List.length hc
    have hone : (CreateTfLiteDelegate copyingLib slotAllocator
        { external_delegate_path := "/no/such/lib.so".toList, external_delegate_options := [] }
        emptyWorld).calls.length = 1 := by decide
    rw [hone] at hlen
    simp at hlen
  · intro hall
    have hnull := hall
      { external_delegate_path := "null.so".toList, external_delegate_options := [] }
      (by decide) { delegate := none, deleter := Deleter.externalDelete } (by decide)
    revert hnull
    decide

/-- C4, as amended: with a non-empty `external_delegate_path` whose library
`TfLiteExternalDelegateOptionsDefault` can open, the library calls made are, in
this order, that one call `TfLiteExternalDelegateOptionsDefault(path)`, one
insert per accepted pair of `external_delegate_options` in the order of the
string (the texts of the insert calls of the trace are exactly `parse` of the
string, which goes through the `;`-separated segments from left to right,
repeated keys included), and one `TfLiteExternalDelegateCreate` on the options
value that results from the inserts.  The key and the value of an insert call
are pointers into the `key_value` of one iteration, so what the options value
gives at creation is left to the library and the allocator; for a library
that builds the new options value from the old one and the two texts alone it
is the fold of the accepted pairs.  The handle wraps the pointer returned by
the creation call; its release action calls `TfLiteExternalDelegateDelete`
on the pointer it is run on, and the handle runs it when it is released with
a pointer that is not null and makes no call when the pointer is null.
Nothing depends on the statuses returned by the insert calls. -/
theorem CreateTfLiteDelegate_calls {World Options : Type}
    (lib : ExternalDelegateLib World Options) (alloc : Allocator World) (params : ToolParams)
    (w : World) (h : params.external_delegate_path ≠ [])
    (hopen : lib.canOpen w params.external_delegate_path = true) :
    (∃ ptrs : List (CharPtr × CharPtr),
        (CreateTfLiteDelegate lib alloc params w).calls
            = [LibCall.OptionsDefault params.external_delegate_path]
              ++ ptrs.map (fun kv => LibCall.Insert kv.1 kv.2)
              ++ [LibCall.Create (loopEnd lib alloc params w).delegate_options]
          ∧ ptrs.map pointerTexts = parse params.external_delegate_options)
      ∧ insertCalls (CreateTfLiteDelegate lib alloc params w).calls
        = parse params.external_delegate_options
      ∧ parse params.external_delegate_options
        = (params.external_delegate_options.splitOn ';').filterMap insertArgs
      ∧ (∀ ins : Options → List Char → List Char → Options,
          (∀ w2 o key value, (lib.insert w2 o key value).2.1 = ins o key.text value.text) →
          (loopEnd lib alloc params w).delegate_options
            = (parse params.external_delegate_options).foldl (fun o kv => ins o kv.1 kv.2)
                (lib.defaultOptions w params.external_delegate_path).1)
      ∧ (CreateTfLiteDelegate lib alloc params w).result
        = Except.ok
            { delegate := (lib.TfLiteExternalDelegateCreate (loopEnd lib alloc params w).world
                (loopEnd lib alloc params w).delegate_options).1,
              deleter := Deleter.externalDelete }
      ∧ (∀ delegate, (Deleter.externalDelete.run delegate : List (LibCall Options))
          = [LibCall.Delete delegate])
      ∧ (∀ handle, (CreateTfLiteDelegate lib alloc params w).result = Except.ok handle →
          (handle.release : List (LibCall Options))
            = match handle.delegate with
              | none => []
              | some a => [LibCall.Delete (some a)])
      ∧ ∀ status, CreateTfLiteDelegate (lib.withStatus status) alloc params w
          = CreateTfLiteDelegate lib alloc params w := by
  have hshape := CreateTfLiteDelegate_nonempty lib alloc params w h hopen
  refine ⟨hshape, ?_, parse_eq_splitOn _, ?_, ?_, fun _ => rfl, ?_, ?_⟩
  · obtain ⟨ptrs, hc, ht⟩ := hshape
    rw [hc, insertCalls_shape, ht]
  · intro ins hcopy
    exact foldl_applyOption_copies lib alloc ins hcopy _ _
  · rw [CreateTfLiteDelegate_opened lib alloc params w h hopen]
  · intro handle hh
    rw [CreateTfLiteDelegate_opened lib alloc params w h hopen] at hh
    cases hh
    cases hp : (lib.TfLiteExternalDelegateCreate (loopEnd lib alloc params w).world
        (loopEnd lib alloc params w).delegate_options).1 with
    | none => simp [TfLiteDelegatePtr.release, hp]
    | some a => simp [TfLiteDelegatePtr.release, hp, Deleter.run]
  · intro status
    have hopen2 : (lib.withStatus status).canOpen w params.external_delegate_path = true := hopen
    have hloop : loopEnd (lib.withStatus status) alloc params w = loopEnd lib alloc params w := by
      unfold loopEnd
      rw [applyOption_withStatus]
      rfl
    rw [CreateTfLiteDelegate_opened lib alloc params w h hopen,
      CreateTfLiteDelegate_opened (lib.withStatus status) alloc params w h hopen2, hloop]
    rfl

theorem CreateTfLiteDelegate_calls_witness :
    (({ external_delegate_path := "lib.so".toList,
        external_delegate_options := "a:1;x;a:2".toList } : ToolParams).external_delegate_path ≠ [])
      ∧ copyingLib.canOpen emptyWorld "lib.so".toList = true
      ∧ insertCalls (CreateTfLiteDelegate copyingLib slotAllocator
          { external_delegate_path := "lib.so".toList,
            external_delegate_options := "a:1;x;a:2".toList } emptyWorld).calls
        = [("a".toList, "1".toList), ("a".toList, "2".toList)]
      ∧ (CreateTfLiteDelegate copyingLib slotAllocator
          { external_delegate_path := "lib.so".toList,
            external_delegate_options := "a:1;x;a:2".toList } emptyWorld).calls
        = [LibCall.OptionsDefault "lib.so".toList,
            LibCall.Insert { addr := 0, text := "a".toList } { addr := 1, text := "1".toList },
            LibCall.Insert { addr := 0, text := "a".toList } { addr := 1, text := "2".toList },
            LibCall.Create ("lib.so".toList,
              [("a".toList, "1".toList), ("a".toList, "2".toList)])]
      ∧ (CreateTfLiteDelegate copyingLib slotAllocator
          { external_delegate_path := "lib.so".toList,
            external_delegate_options := "a:1;x;a:2".toList } emptyWorld).result
        = Except.ok { delegate := some 4096, deleter := Deleter.externalDelete }
      ∧ (CreateTfLiteDelegate keepingLib slotAllocator
          { external_delegate_path := "lib.so".toList,
            external_delegate_options := "a:1;b:2".toList } emptyWorld).calls
        = [LibCall.OptionsDefault "lib.so".toList,
            LibCall.Insert { addr := 0, text := "a".toList } { addr := 1, text := "1".toList },
            LibCall.Insert { addr := 0, text := "b".toList } { addr := 1, text := "2".toList },
            LibCall.Create [(0, 1), (0, 1)]]
      ∧ (CreateTfLiteDelegate keepingLib slotAllocator
          { external_delegate_path := "lib.so".toList,
            external_delegate_options := "a:1;b:2".toList } emptyWorld).world.seen
        = [("b".toList, "2".toList), ("b".toList, "2".toList)] :=
  ⟨by decide, by decide,
    (CreateTfLiteDelegate_calls copyingLib slotAllocator
      { external_delegate_path := "lib.so".toList,
        external_delegate_options := "a:1;x;a:2".toList } emptyWorld
      (by decide) (by decide)).2.1.trans (by decide),
    by decide,
    (CreateTfLiteDelegate_calls copyingLib slotAllocator
      { external_delegate_path := "lib.so".toList,
        external_delegate_options := "a:1;x;a:2".toList } emptyWorld
      (by decide) (by decide)).2.2.2.2.1.trans (by decide),
    by decide, by decide⟩

/-- C8: with a non-empty `external_delegate_path` naming a library that does
not exist or cannot be opened, `CreateTfLiteDelegate` fails with
`LibraryLoadError`: the failure of `TfLiteExternalDelegateOptionsDefault`, as
the specification describes that call, leaves the method, which has no
handler.  The outcome differs from the one for an empty path ("provider not
requested"), no handle is returned, in particular none with a null delegate,
and neither an insert nor a creation call is made. -/
theorem CreateTfLiteDelegate_load_error {World Options : Type}
    (lib : ExternalDelegateLib World Options) (alloc : Allocator World) (params : ToolParams)
    (w : World) (h : params.external_delegate_path ≠ [])
    (hopen : lib.canOpen w params.external_delegate_path = false) :
    (CreateTfLiteDelegate lib alloc params w).result
        = Except.error LoadFailure.LibraryLoadError
      ∧ (CreateTfLiteDelegate lib alloc params w).result
        ≠ (CreateTfLiteDelegate lib alloc
            { params with external_delegate_path := [] } w).result
      ∧ (CreateTfLiteDelegate lib alloc params w).result ≠ Except.ok notRequested
      ∧ (∀ handle, (CreateTfLiteDelegate lib alloc params w).result ≠ Except.ok handle)
      ∧ (CreateTfLiteDelegate lib alloc params w).calls
        = [LibCall.OptionsDefault params.external_delegate_path] := by
  rw [CreateTfLiteDelegate_not_opened lib alloc params w h hopen]
  refine ⟨rfl, ?_, ?_, ?_, rfl⟩
  · simp [CreateTfLiteDelegate]
  · simp
  · intro handle
    simp

theorem CreateTfLiteDelegate_load_error_witness :
    (({ external_delegate_path := "/no/such/lib.so".toList,
        external_delegate_options := "a:1".toList } : ToolParams).external_delegate_path ≠ [])
      ∧ copyingLib.canOpen emptyWorld "/no/such/lib.so".toList = false
      ∧ (CreateTfLiteDelegate copyingLib slotAllocator
          { external_delegate_path := "/no/such/lib.so".toList,
            external_delegate_options := "a:1".toList } emptyWorld).result
        = Except.error LoadFailure.LibraryLoadError
      ∧ (CreateTfLiteDelegate copyingLib slotAllocator
          { external_delegate_path := "/no/such/lib.so".toList,
            external_delegate_options := "a:1".toList } emptyWorld).calls
        = [LibCall.OptionsDefault "/no/such/lib.so".toList] :=
  ⟨by decide, by decide,
    (CreateTfLiteDelegate_load_error copyingLib slotAllocator
      { external_delegate_path := "/no/such/lib.so".toList,
        external_delegate_options := "a:1".toList } emptyWorld (by decide) (by decide)).1,
    (CreateTfLiteDelegate_load_error copyingLib slotAllocator
      { external_delegate_path := "/no/such/lib.so".toList,
        external_delegate_options := "a:1".toList } emptyWorld
      (by decide) (by decide)).2.2.2.2.trans (by decide)⟩

/-! ## Option marshalling -/

/-- C2: for every list of pairs whose keys and values are non-empty and hold no
`;`, no `:` and no NUL, the pairs passed to the insert entry point for
`k_1:v_1;...;k_n:v_n` are exactly those pairs, in order, and the callee reads
them unaltered from the `c_str()` pointers; for the empty list the string is
empty and no pair is passed. -/
theorem parse_serialize_well_formed (pairs : List (List Char × List Char))
    (h : ∀ kv ∈ pairs, wellFormedField kv.1 ∧ wellFormedField kv.2) :
    parse (serialize pairs) = pairs ∧ parseRead (serialize pairs) = pairs := by
  have hp : parse (serialize pairs) = pairs := by
    rw [parse_serialize pairs (fun kv hkv =>
      ⟨(h kv hkv).1.2.1, (h kv hkv).1.2.2.1, (h kv hkv).2.2.1, (h kv hkv).2.2.2.1⟩)]
    rw [List.filter_eq_self]
    intro kv hkv
    simpa using (h kv hkv).2.1
  refine ⟨hp, ?_⟩
  unfold parseRead
  rw [hp]
  conv_rhs => rw [← List.map_id pairs]
  apply List.map_congr_left
  intro kv hkv
  rw [c_str_read_no_NUL kv.1 (h kv hkv).1.2.2.2, c_str_read_no_NUL kv.2 (h kv hkv).2.2.2.2]
  rfl

theorem parse_serialize_well_formed_witness :
    (∀ kv ∈ [("a".toList, "1".toList), ("b".toList, "2".toList)],
        wellFormedField kv.1 ∧ wellFormedField kv.2)
      ∧ parse "a:1;b:2".toList = [("a".toList, "1".toList), ("b".toList, "2".toList)]
      ∧ parseRead "a:1;b:2".toList = [("a".toList, "1".toList), ("b".toList, "2".toList)]
      ∧ parse "".toList = [] :=
  ⟨by decide,
    (parse_serialize_well_formed [("a".toList, "1".toList), ("b".toList, "2".toList)]
      (by decide)).1,
    (parse_serialize_well_formed [("a".toList, "1".toList), ("b".toList, "2".toList)]
      (by decide)).2,
    (parse_serialize_well_formed [] (by decide)).1⟩

/-- C3: a malformed entry `m` (no `;`, no `:`) between two option strings is
dropped without touching its neighbours: the pairs applied for `s1;m;s2` are
those applied for `s1` followed by those applied for `s2`. -/
theorem parse_malformed_between (s1 m s2 : List Char) (hsemi : ';' ∉ m) (hcolon : ':' ∉ m) :
    parse (s1 ++ [';'] ++ m ++ [';'] ++ s2) = parse s1 ++ parse s2 := by
  have hm : parse m = [] := by
    rw [parse_option m hsemi, insertArgs_no_colon m hcolon]
    rfl
  have e : s1 ++ [';'] ++ m ++ [';'] ++ s2 = s1 ++ ';' :: (m ++ ';' :: s2) := by simp
  rw [e, parse_append, parse_append, hm, List.nil_append]

theorem parse_malformed_between_witness :
    ';' ∉ "malformed".toList ∧ ':' ∉ "malformed".toList
      ∧ parse ("a:1".toList ++ [';'] ++ "malformed".toList ++ [';'] ++ "b:2".toList)
        = [("a".toList, "1".toList), ("b".toList, "2".toList)] :=
  ⟨by decide, by decide,
    (parse_malformed_between "a:1".toList "malformed".toList "b:2".toList
      (by decide) (by decide)).trans (by decide)⟩

/-- C5 as stated fails: the option `k:v:` holds two `:` and the pair
`(k, v)` is applied for it. -/
theorem parse_two_colons_applied :
    ¬ ∀ o : List Char, ';' ∉ o → (':' ∉ o ∨ 2 ≤ o.count ':') → parse o = [] := by
  intro h
  have hk := h "k:v:".toList (by decide) (Or.inr (by decide))
  revert hk
  decide

/-- C5, as amended: an option (a segment without `;`) that holds no `:` at all,
or that holds two or more `:` and is not of the shape `a:b:` (exactly two `:`,
the second one its last character), has no pair applied. -/
theorem parse_discarded (o : List Char) (h : ';' ∉ o)
    (hc : ':' ∉ o ∨ (2 ≤ o.count ':' ∧ ¬ (o.count ':' = 2 ∧ o.getLast? = some ':'))) :
    parse o = [] := by
  rw [parse_option o h]
  cases hi : insertArgs o with
  | none => rfl
  | some p =>
    exfalso
    obtain ⟨a, b, ha, hb, -, hform | hform⟩ := (insertArgs_eq_some_iff o p).mp hi
    · have hcount := count_colon_one a b ha hb
      rw [← hform.1] at hcount
      rcases hc with hno | ⟨htwo, -⟩
      · exact hno (by simp [hform.1])
      · omega
    · have hcount := count_colon_two a b ha hb
      rw [← hform] at hcount
      rcases hc with hno | ⟨-, hnot⟩
      · exact hno (by simp [hform])
      · exact hnot ⟨hcount, by rw [hform]; exact getLast?_colon_two a b⟩

theorem parse_discarded_witness :
    ';' ∉ "a:1:2".toList
      ∧ (':' ∉ "a:1:2".toList ∨ (2 ≤ "a:1:2".toList.count ':'
          ∧ ¬ ("a:1:2".toList.count ':' = 2 ∧ "a:1:2".toList.getLast? = some ':')))
      ∧ parse "a:1:2".toList = [] :=
  ⟨by decide, by decide, parse_discarded "a:1:2".toList (by decide) (by decide)⟩

/-- C6 as stated fails: the option `a:1:2` holds a `:`, and the pair
(text before the first `:`, text after it) is not what is applied for it:
nothing is. -/
theorem parse_not_first_colon :
    ¬ ∀ o : List Char, ';' ∉ o → ':' ∈ o →
        parse o = [(beforeFirstColon o, afterFirstColon o)] := by
  intro h
  have hk := h "a:1:2".toList (by decide) (by decide)
  revert hk
  decide

/-- C6, as amended: for an option (a segment without `;`), the pair applied is
(text before its first `:`, text after its first `:`) exactly when the option
holds one `:` and the text after it is not empty. -/
theorem parse_single_colon (o : List Char) (h : ';' ∉ o) :
    parse o = [(beforeFirstColon o, afterFirstColon o)]
      ↔ o.count ':' = 1 ∧ afterFirstColon o ≠ [] := by
  rw [parse_option o h]
  constructor
  · intro hp
    cases hi : insertArgs o with
    | none => simp [hi] at hp
    | some p =>
      simp only [hi, Option.toList, List.cons.injEq, and_true] at hp
      obtain ⟨a, b, ha, hb, hpair, hform | hform⟩ := (insertArgs_eq_some_iff o p).mp hi
      · obtain ⟨ho, hne⟩ := hform
        subst ho
        refine ⟨count_colon_one a b ha hb, ?_⟩
        rw [afterFirstColon_colon a b ha]
        exact hne
      · exfalso
        subst hform
        rw [hpair] at hp
        have hsnd := congrArg Prod.snd hp
        rw [afterFirstColon_colon a (b ++ [':']) ha] at hsnd
        have hlen := congrArg List.length hsnd
        simp at hlen
  · rintro ⟨hcount, hne⟩
    have hmem : ':' ∈ o := by
      rw [← List.count_pos_iff]
      omega
    obtain ⟨a, r, rfl, ha⟩ := List.eq_append_cons_of_mem hmem
    have hr : ':' ∉ r := by
      rw [← List.count_eq_zero]
      simp [List.count_append, List.count_cons, List.count_eq_zero.mpr ha] at hcount
      exact hcount
    have hafter := afterFirstColon_colon a r ha
    have hbefore := beforeFirstColon_colon a r ha
    rw [hafter] at hne
    rw [hafter, hbefore, insertArgs_key_value a r ha hr]
    simp [hne]

theorem parse_single_colon_witness :
    ';' ∉ "k:v w".toList
      ∧ "k:v w".toList.count ':' = 1 ∧ afterFirstColon "k:v w".toList ≠ []
      ∧ parse "k:v w".toList = [("k".toList, "v w".toList)] :=
  ⟨by decide, by decide, by decide,
    ((parse_single_colon "k:v w".toList (by decide)).mpr ⟨by decide, by decide⟩).trans
      (by decide)⟩

/-- C7 as stated fails: for `k::` the accepted pair is `(k, "")`, it is
re-serialized as `k:`, and parsing `k:` accepts nothing. -/
theorem parse_serialize_not_idempotent :
    ¬ ∀ s : List Char, parse (serialize (parse s)) = parse s := by
  intro h
  have hk := h "k::".toList
  revert hk
  decide

/-- C7, as amended: parsing the re-serialization of the accepted pairs of `s`
gives the accepted pairs of `s` again if (and only if) every accepted pair of
`s` has a non-empty value. -/
theorem parse_serialize_parse (s : List Char) :
    (∀ kv ∈ parse s, kv.2 ≠ []) ↔ parse (serialize (parse s)) = parse s := by
  rw [parse_serialize (parse s) (fun kv hkv => mem_parse_fields s kv hkv), List.filter_eq_self]
  constructor
  · intro h kv hkv
    simpa using h kv hkv
  · intro h kv hkv
    simpa using h kv hkv

theorem parse_serialize_parse_witness :
    (∀ kv ∈ parse "a:1;malformed;b:2".toList, kv.2 ≠ [])
      ∧ serialize (parse "a:1;malformed;b:2".toList) = "a:1;b:2".toList
      ∧ parse "a:1;b:2".toList = parse "a:1;malformed;b:2".toList :=
  ⟨by decide, by decide,
    (parse_serialize_parse "a:1;malformed;b:2".toList).mp (by decide)⟩

/-- C9: for an option `o` (a string without `;`), an insert call is made
(`SplitString(o, ':')` has exactly two elements) if and only if `o` is `a:b`
with `a`, `b` free of `:` and `b` non-empty, or `o` is `a:b:` with `a`, `b`
free of `:`; the pair applied is then `(a, b)`, and otherwise none is.  So
`k:` is discarded, `:v` is applied with the empty key, `k:v:` is applied as
`(k, v)` and `k::` as `(k, "")`. -/
theorem insert_acceptance (o : List Char) (h : ';' ∉ o) :
    ((SplitString o ':').length = 2 ↔ ∃ a b, acceptedForm o a b)
      ∧ (∀ a b, acceptedForm o a b → parse o = [(a, b)])
      ∧ ((SplitString o ':').length ≠ 2 → parse o = [])
      ∧ parse "k:".toList = []
      ∧ parse ":v".toList = [([], "v".toList)]
      ∧ parse "k:v:".toList = [("k".toList, "v".toList)]
      ∧ parse "k::".toList = [("k".toList, [])] := by
  refine ⟨?_, ?_, ?_, by decide, by decide, by decide, by decide⟩
  · rw [length_SplitString_eq_two_iff]
    constructor
    · rintro ⟨p, hp⟩
      obtain ⟨a, b, ha, hb, -, hform⟩ := (insertArgs_eq_some_iff o p).mp hp
      exact ⟨a, b, ha, hb, hform⟩
    · rintro ⟨a, b, ha, hb, hform⟩
      exact ⟨(a, b), (insertArgs_eq_some_iff o (a, b)).mpr ⟨a, b, ha, hb, rfl, hform⟩⟩
  · rintro a b ⟨ha, hb, hform⟩
    rw [parse_option o h, (insertArgs_eq_some_iff o (a, b)).mpr ⟨a, b, ha, hb, rfl, hform⟩]
    rfl
  · intro hlen
    rw [parse_option o h]
    cases hi : insertArgs o with
    | none => rfl
    | some p => exact absurd ((length_SplitString_eq_two_iff o).mpr ⟨p, hi⟩) hlen

theorem insert_acceptance_witness :
    ';' ∉ "k e y: v ".toList
      ∧ (SplitString "k e y: v ".toList ':').length = 2
      ∧ acceptedForm "k e y: v ".toList "k e y".toList " v ".toList
      ∧ parse "k e y: v ".toList = [("k e y".toList, " v ".toList)] :=
  ⟨by decide, by decide, ⟨by decide, by decide, Or.inl ⟨by decide, by decide⟩⟩,
    (insert_acceptance "k e y: v ".toList (by decide)).2.1 "k e y".toList " v ".toList
      ⟨by decide, by decide, Or.inl ⟨by decide, by decide⟩⟩⟩

/-! ## `SplitString` -/

/-- C10: for every string `s` and delimiter `d`, the loop of `SplitString`
finishes (any bound above `s.length` on its iterations gives the result), and
the result is the usual split of `s` on `d` with its last segment removed when
that segment is empty.  The usual split has `count(d, s) + 1` segments, each
free of `d`, which joined with `d` give `s`, and it is the only such list.
Hence `SplitString("", d)` is empty, no token follows a trailing delimiter, a
leading delimiter and two delimiters in a row yield an empty token, and no
token holds `d`. -/
theorem SplitString_usual_split (s : List Char) (d : Char) :
    (∀ k, SplitStringFuel (s.length + 1 + k) s d = some (SplitString s d))
      ∧ SplitString s d = dropLastIfEmpty (s.splitOn d)
      ∧ (s.splitOn d).length = s.count d + 1
      ∧ (∀ seg ∈ s.splitOn d, d ∉ seg)
      ∧ [d].intercalate (s.splitOn d) = s
      ∧ (∀ segs : List (List Char), segs ≠ [] → (∀ seg ∈ segs, d ∉ seg) →
          [d].intercalate segs = s → segs = s.splitOn d)
      ∧ SplitString [] d = []
      ∧ SplitString (s ++ [d]) d = s.splitOn d
      ∧ SplitString (d :: s) d = [] :: SplitString s d
      ∧ (∀ a, d ∉ a → SplitString (a ++ d :: d :: s) d = a :: [] :: SplitString s d)
      ∧ (∀ t ∈ SplitString s d, d ∉ t) := by
  refine ⟨?_, SplitString_eq s d, length_splitOn d s, fun seg hseg => (splitOn_segment d s seg hseg).1,
    List.intercalate_splitOn s d, ?_, SplitString_nil d, ?_, ?_, ?_,
    fun t ht => (mem_SplitString d s t ht).1⟩
  · intro k
    rw [SplitStringFuel_eq (s.length + 1 + k) s d (by omega), SplitString_eq]
  · intro segs hne hfree hjoin
    rw [← hjoin, List.splitOn_intercalate segs d hfree hne]
  · rw [SplitString_eq, splitOn_append_cons, List.splitOn_nil, dropLastIfEmpty_append_nil]
  · exact SplitString_delimiter d [] s (by simp)
  · intro a ha
    rw [SplitString_delimiter d a (d :: s) ha]
    exact congrArg (List.cons a) (SplitString_delimiter d [] s (by simp))

theorem SplitString_usual_split_witness :
    SplitStringFuel 7 ";a;;b;".toList ';' = some [[], "a".toList, [], "b".toList]
      ∧ SplitString ";a;;b;".toList ';' = [[], "a".toList, [], "b".toList]
      ∧ ";a;;b;".toList.splitOn ';' = [[], "a".toList, [], "b".toList, []] :=
  ⟨((SplitString_usual_split ";a;;b;".toList ';').1 0).trans (by decide),
    (SplitString_usual_split ";a;;b;".toList ';').2.1.trans (by decide), by decide⟩

end tflite.tools
